import Mathlib

/-!
Verification of the hierarchical ignore-rule resolution and tree-filtering
engine of `compress.py` (`load_gitignore_rules`, `get_non_ignored_files` and
its inner `is_ignored`).

Modelling choices.
* Python strings are embedded as `List Char` (`PyStr`); Python's string
  comparison `>=` is code-point lexicographic (`pyLe`).
* `os.path.dirname`, `os.path.join` and the ancestor case of
  `os.path.relpath` are translated from `posixpath`.
* The filesystem is modelled by its `os.walk` enumeration: the list of
  (directory path, files of that directory with their text lines) pairs in
  traversal order, since the source accesses the tree only through
  `os.walk` (twice, in the same order).
* The third-party `pathspec` gitwildmatch matcher called by the source is
  not part of the repository; its pattern grammar and evaluation are
  modelled from the spec (sections 4.1 and 4.4): leading `!` negation,
  trailing `/` directory-only, leading `/` anchoring, `**` whole segments
  matching zero or more path segments, `*`/`?`/`[...]` inside a segment,
  an implicit any-depth prefix for unanchored patterns, and in-order
  evaluation where a matching plain pattern sets excluded and a matching
  negated pattern clears it.
* The Python `while` loop of `is_ignored` is embedded with an explicit
  fuel counter (`isIgnoredLoop`); `none` means the fuel ran out.  The
  wrapper `is_ignored` supplies `path.length + 1` fuel, which the
  termination analysis (claim C10) shows is sufficient for well-formed
  base paths.
-/

/-- Python strings, embedded as their code-point sequences. -/
abbrev PyStr := List Char

/-- Coerce a Lean string literal to the embedding. -/
def str (s : String) : PyStr := s.data

/-- Python string comparison `a <= b`: code-point lexicographic, with a
proper prefix smaller than the longer string. -/
def pyLe : PyStr → PyStr → Bool
  | [], _ => true
  | _ :: _, [] => false
  | a :: as, b :: bs => if a = b then pyLe as bs else decide (a < b)

/-- The prefix of `p` up to and including its last `'/'`
(`p[:p.rfind('/') + 1]` in `posixpath.dirname`), `none` if `p` has no
slash. -/
def slashHead : PyStr → Option PyStr
  | [] => none
  | c :: cs =>
    match slashHead cs with
    | some h => some (c :: h)
    | none => if c = '/' then some [ '/' ] else none

/-- Remove trailing slashes (`head.rstrip('/')` in `posixpath.dirname`). -/
def rstripSlash (h : PyStr) : PyStr := (h.reverse.dropWhile (· = '/')).reverse

/-- `posixpath.dirname`: the head up to the last slash; trailing slashes
are stripped unless the head consists only of slashes. -/
def dirnameChars (p : PyStr) : PyStr :=
  match slashHead p with
  | none => []
  | some h => if h.all (· = '/') then h else rstripSlash h

/-- `posixpath.join(root, name)` for the two-argument case. -/
def joinPath (root name : PyStr) : PyStr :=
  match name with
  | '/' :: _ => name
  | _ =>
    if root = [] then name
    else if root.getLast? = some '/' then root ++ name
    else root ++ '/' :: name

/-- `os.path.relpath(path, start)` restricted to the ancestor case, the
only one the engine produces: when `start ++ "/"` is a prefix of `path`
the rest of `path` is returned; on other inputs (never reached by the
engine on well-formed trees) the path is returned unchanged. -/
def relpathUnder (path start : PyStr) : PyStr :=
  if (start ++ [ '/' ]).isPrefixOf path then path.drop (start.length + 1) else path

/-- Split a relative path into its `'/'`-separated segments. -/
def splitSlash : PyStr → List PyStr
  | [] => [[]]
  | c :: cs =>
    if c = '/' then [] :: splitSlash cs
    else
      match splitSlash cs with
      | s :: rest => (c :: s) :: rest
      | [] => [[c]]

/-- Modelled from the spec: one compiled glob element inside a path
segment of a gitwildmatch pattern (the `pathspec` pattern compiler is an
external dependency, absent from the sources): a literal character, `*`
(any run of characters except the separator), `?` (exactly one character
except the separator), or a bracket character class given by its optional
leading `!` and its list of ranges (a single character is the range from
itself to itself). -/
inductive GlobTok : Type where
  | lit (c : Char) : GlobTok
  | star : GlobTok
  | qmark : GlobTok
  | cls (negC : Bool) (ranges : List (Char × Char)) : GlobTok
deriving DecidableEq, Repr

/-- Modelled from the spec: read the items of a bracket character class
after the opening `[` (and optional `!`), up to the closing `]`; `none`
when the class is unterminated, in which case the `[` is treated as a
literal (spec section 4.1: malformed constructs are tolerated as
literals). -/
def readClassItems : List Char → Option (List (Char × Char) × List Char)
  | [] => none
  | ']' :: rest => some ([], rest)
  | a :: '-' :: ']' :: rest => some ([(a, a), ('-', '-')], rest)
  | a :: '-' :: b :: rest =>
    (readClassItems rest).map (fun p => ((a, b) :: p.1, p.2))
  | a :: rest =>
    (readClassItems rest).map (fun p => ((a, a) :: p.1, p.2))

/-- Modelled from the spec: read a full bracket class after the opening
`[`, with its optional leading `!` negation. -/
def readClass (cs : List Char) : Option (Bool × List (Char × Char) × List Char) :=
  match cs with
  | '!' :: rest => (readClassItems rest).map (fun p => (true, p.1, p.2))
  | _ => (readClassItems cs).map (fun p => (false, p.1, p.2))

/-- Modelled from the spec: compile the characters of one pattern segment
into glob elements.  The fuel argument equals the number of characters
and never runs out, because the class reader always consumes at least the
closing bracket. -/
def compileSegAux : Nat → List Char → List GlobTok
  | 0, _ => []
  | _ + 1, [] => []
  | n + 1, c :: rest =>
    if c = '*' then GlobTok.star :: compileSegAux n rest
    else if c = '?' then GlobTok.qmark :: compileSegAux n rest
    else if c = '[' then
      match readClass rest with
      | some (negC, items, rest') => GlobTok.cls negC items :: compileSegAux n rest'
      | none => GlobTok.lit '[' :: compileSegAux n rest
    else GlobTok.lit c :: compileSegAux n rest

/-- Compile one pattern segment. -/
def compileSeg (cs : List Char) : List GlobTok := compileSegAux cs.length cs

/-- Does a character fall in one of the ranges of a bracket class? -/
def inClass (ranges : List (Char × Char)) (t : Char) : Bool :=
  ranges.any (fun r => decide (r.1 ≤ t) && decide (t ≤ r.2))

/-- Modelled from the spec: match a compiled segment against the
characters of one path segment; `*` matches any run of characters, `?`
exactly one, classes one character in (or, when negated, out of) their
ranges.  The fuel argument, one more than the combined length of pattern
and text, never runs out because every step shortens one of the two. -/
def matchToksAux : Nat → List GlobTok → List Char → Bool
  | 0, _, _ => false
  | _ + 1, [], [] => true
  | _ + 1, [], _ :: _ => false
  | n + 1, GlobTok.star :: ps, ts =>
    matchToksAux n ps ts ||
      (match ts with
       | [] => false
       | _ :: ts' => matchToksAux n (GlobTok.star :: ps) ts')
  | n + 1, GlobTok.qmark :: ps, ts =>
    (match ts with
     | [] => false
     | _ :: ts' => matchToksAux n ps ts')
  | n + 1, GlobTok.cls negC items :: ps, ts =>
    (match ts with
     | [] => false
     | t :: ts' => (negC != inClass items t) && matchToksAux n ps ts')
  | n + 1, GlobTok.lit c :: ps, ts =>
    (match ts with
     | [] => false
     | t :: ts' => decide (c = t) && matchToksAux n ps ts')

/-- Match a compiled segment against one path segment. -/
def matchToks (ps : List GlobTok) (ts : List Char) : Bool :=
  matchToksAux (ps.length + ts.length + 1) ps ts

/-- A segment of a compiled pattern path: either the cross-segment `**`
wildcard, or an ordinary compiled glob segment. -/
inductive PatSeg : Type where
  | dstar : PatSeg
  | seg (toks : List GlobTok) : PatSeg
deriving DecidableEq, Repr

/-- Modelled from the spec: match a list of pattern segments against the
segments of a path; a `**` segment matches zero or more path segments.
The fuel never runs out for the same reason as in `matchToksAux`. -/
def matchSegsAux : Nat → List PatSeg → List PyStr → Bool
  | 0, _, _ => false
  | _ + 1, [], [] => true
  | _ + 1, [], _ :: _ => false
  | n + 1, PatSeg.dstar :: ps, ts =>
    matchSegsAux n ps ts ||
      (match ts with
       | [] => false
       | _ :: ts' => matchSegsAux n (PatSeg.dstar :: ps) ts')
  | _ + 1, PatSeg.seg _ :: _, [] => false
  | n + 1, PatSeg.seg tk :: ps, t :: ts => matchToks tk t && matchSegsAux n ps ts

/-- Match a compiled pattern path against path segments. -/
def matchSegs (ps : List PatSeg) (ts : List PyStr) : Bool :=
  matchSegsAux (ps.length + ts.length + 1) ps ts

/-- Modelled from the spec: one compiled ignore pattern — negation flag
(leading `!`), directory-only flag (trailing `/`), anchoring flag
(leading `/`), and the compiled glob segments. -/
structure GitPattern : Type where
  negated : Bool
  dirOnly : Bool
  anchored : Bool
  segs : List PatSeg
deriving DecidableEq, Repr

/-- The nonempty prefixes of a segment list, shortest first, the full
list last. -/
def initsNE : List PyStr → List (List PyStr)
  | [] => []
  | a :: rest => [a] :: (initsNE rest).map (a :: ·)

/-- Modelled from the spec (sections 4.1 and 4.4): does a compiled
pattern match a candidate file, given the file's path segments relative
to the pattern's owning directory?  An unanchored pattern carries an
implicit any-depth `**/` prefix.  A directory-only pattern is evaluated
only against the proper prefixes of the file path (the file's ancestor
directories); an ordinary pattern also matches when it matches an
ancestor directory, since excluding a directory excludes the files below
it. -/
def patternMatchesFile (p : GitPattern) (fileSegs : List PyStr) : Bool :=
  let pat := if p.anchored then p.segs else PatSeg.dstar :: p.segs
  let cands := if p.dirOnly then (initsNE fileSegs).dropLast else initsNE fileSegs
  cands.any (fun c => matchSegs pat c)

/-- Modelled from the spec (section 4.4 step 2): evaluate every pattern
of a rule set in declaration order; a matching plain pattern sets the
excluded flag, a matching negated pattern clears it, the last match
wins.  This is also the behaviour of `pathspec.PathSpec.match_file`. -/
def matchFile (pats : List GitPattern) (fileSegs : List PyStr) : Bool :=
  pats.foldl (fun acc p => if patternMatchesFile p fileSegs then !p.negated else acc) false

/-- Whitespace for line trimming. -/
def isSpaceCh (c : Char) : Bool := c = ' ' || c = '\t' || c = '\n' || c = '\r'

/-- Trim whitespace at both ends of a line. -/
def trimStr (l : PyStr) : PyStr :=
  ((l.dropWhile isSpaceCh).reverse.dropWhile isSpaceCh).reverse

/-- Modelled from the spec (section 4.1): compile one rule line, or
`none` for blank and comment lines.  A leading `!` marks negation, a
trailing `/` marks directory-only, a leading `/` (after stripping those)
anchors the pattern; the remainder is split on `/`, with `**` segments
kept as the cross-segment wildcard. -/
def parseLine (line : PyStr) : Option GitPattern :=
  match trimStr line with
  | [] => none
  | '#' :: _ => none
  | l0 =>
    let pn := match l0 with
      | '!' :: rest => (true, rest)
      | _ => (false, l0)
    let pd := match pn.2.getLast? with
      | some '/' => (true, pn.2.dropLast)
      | _ => (false, pn.2)
    let pa := match pd.2 with
      | '/' :: rest => (true, rest)
      | _ => (false, pd.2)
    some ⟨pn.1, pd.1, pa.1,
      (splitSlash pa.2).map (fun s =>
        if s = [ '*', '*' ] then PatSeg.dstar else PatSeg.seg (compileSeg s))⟩


/-- The filesystem as enumerated by `os.walk`: for each directory, in
traversal order, its path and the files it directly contains, each file
with its text lines. -/
abbrev FS := List (PyStr × List (PyStr × List PyStr))

/-- `load_gitignore_rules` (compress.py lines 21-27): `none` models a
path for which `os.path.exists` is false, yielding the empty rule set;
otherwise every non-inert line is compiled, in file order
(`PathSpec.from_lines("gitwildmatch", f.readlines())`). -/
def load_gitignore_rules (content : Option (List PyStr)) : List GitPattern :=
  match content with
  | none => []
  | some lines => lines.filterMap parseLine

/-- Does a directory listing contain a file of the given name?  Returns
its lines (the `os.path.exists(ignore_file)` test of line 39 followed by
the read of line 26). -/
def findFile (files : List (PyStr × List PyStr)) (name : PyStr) : Option (List PyStr) :=
  (files.find? (fun f => decide (f.1 = name))).map (·.2)

/-- The `dir_to_spec` mapping (compress.py lines 36-40): one pass over
the walk, loading the rule file of every directory that has one. -/
def build_dir_to_spec (fs : FS) (iname : PyStr) : List (PyStr × List GitPattern) :=
  fs.filterMap (fun rf =>
    match findFile rf.2 iname with
    | some lines => some (rf.1, load_gitignore_rules (some lines))
    | none => none)

/-- Dictionary lookup `dir_to_spec[current_dir]` guarded by
`current_dir in dir_to_spec`. -/
def lookupSpec (m : List (PyStr × List GitPattern)) (d : PyStr) : Option (List GitPattern) :=
  (m.find? (fun e => decide (e.1 = d))).map (·.2)

/-- The `while current_dir >= base_path_str` loop of `is_ignored`
(compress.py lines 45-52), with explicit fuel; `none` means the fuel ran
out before the loop exited. -/
def isIgnoredLoop (m : List (PyStr × List GitPattern)) (basePathStr path : PyStr) :
    Nat → PyStr → Option Bool
  | 0, _ => none
  | fuel + 1, currentDir =>
    if pyLe basePathStr currentDir then
      match lookupSpec m currentDir with
      | some spec =>
        if matchFile spec (splitSlash (relpathUnder path currentDir)) then some true
        else isIgnoredLoop m basePathStr path fuel (dirnameChars currentDir)
      | none => isIgnoredLoop m basePathStr path fuel (dirnameChars currentDir)
    else some false

/-- `is_ignored` (compress.py lines 43-52): walk from the file's parent
directory upwards while the guard holds, returning ignored on the first
matching rule set.  The fuel `path.length + 1` is sufficient for
well-formed base paths (claim C10); if it ran out the result would
default to not-ignored. -/
def is_ignored (m : List (PyStr × List GitPattern)) (basePathStr path : PyStr) : Bool :=
  (isIgnoredLoop m basePathStr path (path.length + 1) (dirnameChars path)).getD false

/-- The collection loop of `get_non_ignored_files` (compress.py lines
55-61): the second walk, keeping each file whose name equals the rule
file name or which is not ignored, recorded relative to the base. -/
def select_files (m : List (PyStr × List GitPattern)) (basePathStr iname : PyStr)
    (fs : FS) : List PyStr :=
  fs.flatMap (fun rf =>
    rf.2.filterMap (fun f =>
      let fullPath := joinPath rf.1 f.1
      if f.1 = iname ∨ is_ignored m basePathStr fullPath = false
      then some (relpathUnder fullPath basePathStr) else none))

/-- `get_non_ignored_files` (compress.py lines 30-63). -/
def get_non_ignored_files (basePathStr iname : PyStr) (fs : FS) : List PyStr :=
  select_files (build_dir_to_spec fs iname) basePathStr iname fs

/-- The ancestor directories visited by the loop of `is_ignored`,
outermost last: the `dirname` iterates while the lexicographic guard
holds. -/
def ancestorChain (base : PyStr) : Nat → PyStr → List PyStr
  | 0, _ => []
  | fuel + 1, cur =>
    if pyLe base cur then cur :: ancestorChain base fuel (dirnameChars cur)
    else []

/-- Termination of the `while` loop of `is_ignored` on given inputs:
some amount of fuel lets it exit. -/
def LoopTerminates (m : List (PyStr × List GitPattern)) (basePathStr path : PyStr) : Prop :=
  ∃ n, (isIgnoredLoop m basePathStr path n (dirnameChars path)).isSome

/-- A string consisting only of slashes (the fixed points of
`posixpath.dirname`, the empty string among them). -/
def allSlash (s : PyStr) : Bool := s.all (· = '/')

/-- The leading run of slashes of a path. -/
def leadingSlashes (s : PyStr) : PyStr := s.takeWhile (· = '/')

/-- Does `w` occur as a suffix of the segment?  Reference predicate used
to state what `*`-then-literals patterns match. -/
def endsWith (w : PyStr) : PyStr → Bool
  | [] => decide (w = [])
  | t :: ts => decide (w = t :: ts) || endsWith w ts

/-! ### The engine under read failures

`open(ignore_file, "r")` on line 26 can raise (permission denied,
encoding error).  To settle claim C8 the reading of rule files is
modelled with `Except`: each file's content is either its lines or a
read failure, and a raised exception propagates out of the affected
call, as unhandled Python exceptions do. -/

/-- The walk enumeration with fallible file contents. -/
abbrev FSE := List (PyStr × List (PyStr × Except Unit (List PyStr)))

/-- Locate a file in a directory listing with fallible contents. -/
def findFileE (files : List (PyStr × Except Unit (List PyStr))) (name : PyStr) :
    Option (Except Unit (List PyStr)) :=
  (files.find? (fun f => decide (f.1 = name))).map (·.2)

/-- `load_gitignore_rules` with a fallible read: a missing file still
yields the empty rule set, but a failing read propagates the failure. -/
def load_gitignore_rulesE : Option (Except Unit (List PyStr)) → Except Unit (List GitPattern)
  | none => Except.ok []
  | some (Except.error e) => Except.error e
  | some (Except.ok lines) => Except.ok (lines.filterMap parseLine)

/-- The `dir_to_spec` construction loop with fallible reads: the first
raised exception aborts the iteration and propagates. -/
def build_dir_to_specE (iname : PyStr) : FSE → Except Unit (List (PyStr × List GitPattern))
  | [] => Except.ok []
  | rf :: rest =>
    match findFileE rf.2 iname with
    | none => build_dir_to_specE iname rest
    | some content =>
      match load_gitignore_rulesE (some content) with
      | Except.error e => Except.error e
      | Except.ok pats => (build_dir_to_specE iname rest).map (fun m => (rf.1, pats) :: m)

/-- Forget contents for the collection walk, which only reads names. -/
def stripFSE (fs : FSE) : FS :=
  fs.map (fun rf => (rf.1, rf.2.map (fun f => (f.1, []))))

/-- `get_non_ignored_files` with fallible reads: a failure while building
the mapping propagates out of the whole call, before any file is
collected. -/
def get_non_ignored_filesE (basePathStr iname : PyStr) (fs : FSE) : Except Unit (List PyStr) :=
  match build_dir_to_specE iname fs with
  | Except.error e => Except.error e
  | Except.ok m => Except.ok (select_files m basePathStr iname (stripFSE fs))

/-! ### Concrete scenario data -/

/-- Rule file name used by several concrete scenarios (the program's
default alias). -/
def zig : PyStr := str ".7zignore"

/-- A tree whose root rule set holds the pattern pair of the negation
claims: `*.ext` then `!keep.ext`, with a matching and a non-matching
file beside the rule file. -/
def fsSame : FS :=
  [ (str "/b",
      [ (zig, [str "*.ext", str "!keep.ext"]),
        (str "keep.ext", []), (str "other.ext", []) ]) ]

/-- A tree with the broad exclusion `*.ext` at the root and the negation
`!keep.ext` in a deeper (more specific) rule set. -/
def fsDeep : FS :=
  [ (str "/b", [ (zig, [str "*.ext"]) ]),
    (str "/b/d", [ (zig, [str "!keep.ext"]), (str "keep.ext", []) ]) ]

/-- A tree whose root rule set excludes a directory with `dir/**` and
then negates one file inside it. -/
def fsDirSame : FS :=
  [ (str "/b", [ (zig, [str "dir/**", str "!dir/keep.txt"]) ]),
    (str "/b/dir", [ (str "keep.txt", []), (str "drop.txt", []) ]) ]

/-- A tree with `dir/**` at the root and the negation `!keep.txt` inside
the excluded directory's own rule set. -/
def fsDirDeep : FS :=
  [ (str "/b", [ (zig, [str "dir/**"]) ]),
    (str "/b/dir", [ (zig, [str "!keep.txt"]), (str "keep.txt", []), (str "drop.txt", []) ]) ]

/-- Scenario A of the spec: the root rule file declares `*_ignore.txt`,
`!do_not_ignore.txt`, `ignore_dir/**` over the five listed files. -/
def fsScenA : FS :=
  [ (str "/t",
      [ (str ".gitignore",
          [str "*_ignore.txt", str "!do_not_ignore.txt", str "ignore_dir/**"]),
        (str "some_file.txt", []),
        (str "please_ignore.txt", []),
        (str "do_not_ignore.txt", []) ]),
    (str "/t/ignore_dir", [ (str "ignore_file.txt", []) ]),
    (str "/t/not_ignore_dir", [ (str "not_ignore_file.txt", []) ]) ]

/-- A tree whose rule file is matched by its own only pattern. -/
def fsSelf : FS :=
  [ (str "/t", [ (zig, [str ".7zignore"]), (str "a.txt", []) ]) ]

/-- A fallible tree: the root rule file reads fine, the one in the
subdirectory raises on read; both directories hold ordinary files. -/
def fseBad : FSE :=
  [ (str "/t",
      [ (str ".gitignore", Except.ok [str "*.log"]),
        (str "keep.txt", Except.ok []) ]),
    (str "/t/d",
      [ (str ".gitignore", Except.error ()),
        (str "other.txt", Except.ok []) ]) ]

/-! ### Matcher evaluation lemmas -/

theorem matchToksAux_lit (w : PyStr) : ∀ (s : PyStr) (n : Nat),
    w.length + s.length + 1 ≤ n →
    matchToksAux n (w.map GlobTok.lit) s = decide (s = w) := by
  induction w with
  | nil =>
    intro s n hn
    match n, s with
    | n + 1, [] => rfl
    | n + 1, t :: ts => rfl
  | cons c w' ih =>
    intro s n hn
    match n, s with
    | n + 1, [] => rfl
    | n + 1, t :: ts =>
      have : matchToksAux (n + 1) ((c :: w').map GlobTok.lit) (t :: ts)
          = (decide (c = t) && matchToksAux n (w'.map GlobTok.lit) ts) := rfl
      rw [this, ih ts n (by simp only [List.length_cons] at hn ⊢; omega)]
      by_cases h : c = t
      · subst h
        by_cases h2 : ts = w'
        · simp [h2]
        · simp [h2, fun hh : ts = w' => h2 hh]
      · have hne : ¬t :: ts = c :: w' := by
          intro hh
          injection hh with h1 _
          exact h (h1.symm)
        simp [h, hne]

theorem matchToksAux_star_lit (w : PyStr) : ∀ (s : PyStr) (n : Nat),
    s.length + w.length + 2 ≤ n →
    matchToksAux n (GlobTok.star :: w.map GlobTok.lit) s = endsWith w s := by
  intro s
  induction s with
  | nil =>
    intro n hn
    match n with
    | n + 1 =>
      have : matchToksAux (n + 1) (GlobTok.star :: w.map GlobTok.lit) []
          = (matchToksAux n (w.map GlobTok.lit) [] || false) := rfl
      rw [this, matchToksAux_lit w [] n (by simp only [List.length_cons, List.length_nil] at hn ⊢; omega)]
      simp [endsWith, eq_comm]
  | cons t ts ih =>
    intro n hn
    match n with
    | n + 1 =>
      have : matchToksAux (n + 1) (GlobTok.star :: w.map GlobTok.lit) (t :: ts)
          = (matchToksAux n (w.map GlobTok.lit) (t :: ts) ||
             matchToksAux n (GlobTok.star :: w.map GlobTok.lit) ts) := rfl
      rw [this, matchToksAux_lit w (t :: ts) n (by simp only [List.length_cons] at hn ⊢; omega),
        ih n (by simp only [List.length_cons] at hn ⊢; omega)]
      simp [endsWith, eq_comm]

theorem matchToks_lit (w s : PyStr) :
    matchToks (w.map GlobTok.lit) s = decide (s = w) := by
  unfold matchToks
  exact matchToksAux_lit w s _ (by simp)

theorem matchToks_star_lit (w s : PyStr) :
    matchToks (GlobTok.star :: w.map GlobTok.lit) s = endsWith w s := by
  unfold matchToks
  exact matchToksAux_star_lit w s _ (by simp; omega)

/-! ### Path function lemmas -/

theorem slashHead_nosl (s : PyStr) (hs : ∀ c ∈ s, c ≠ '/') : slashHead s = none := by
  induction s with
  | nil => rfl
  | cons c cs ih =>
    have hc : c ≠ '/' := hs c (by simp)
    simp [slashHead, ih (fun d hd => hs d (by simp [hd])), hc]

theorem slashHead_append (q s : PyStr) (hs : ∀ c ∈ s, c ≠ '/') :
    slashHead (q ++ '/' :: s) = some (q ++ [ '/' ]) := by
  induction q with
  | nil => simp [slashHead, slashHead_nosl s hs]
  | cons c q' ih => simp [slashHead, ih]

theorem splitSlash_nosl (s : PyStr) (hs : ∀ c ∈ s, c ≠ '/') : splitSlash s = [s] := by
  induction s with
  | nil => rfl
  | cons c cs ih =>
    have hc : c ≠ '/' := hs c (by simp)
    simp [splitSlash, hc, ih (fun d hd => hs d (by simp [hd]))]

theorem splitSlash_append (q s : PyStr) (hq : ∀ c ∈ q, c ≠ '/') :
    splitSlash (q ++ '/' :: s) = q :: splitSlash s := by
  induction q with
  | nil => simp [splitSlash]
  | cons c q' ih =>
    have hc : c ≠ '/' := hq c (by simp)
    have ih' := ih (fun d hd => hq d (by simp [hd]))
    simp [splitSlash, hc, ih']

theorem isPrefixOf_append_self (l t : PyStr) : l.isPrefixOf (l ++ t) = true := by
  induction l with
  | nil => simp [List.isPrefixOf]
  | cons c l' ih => simp [List.isPrefixOf, ih]

theorem relpath_append (q s : PyStr) : relpathUnder (q ++ '/' :: s) q = s := by
  have hform : q ++ '/' :: s = (q ++ [ '/' ]) ++ s := by simp
  rw [relpathUnder, hform, isPrefixOf_append_self]
  simp only [if_true]
  have : q.length + 1 = (q ++ [ '/' ]).length := by simp
  rw [this, List.drop_left]

theorem pyLe_refl (a : PyStr) : pyLe a a = true := by
  induction a with
  | nil => rfl
  | cons c as ih => simp [pyLe, ih]

theorem pyLe_append_ne (x d : PyStr) (hd : d ≠ []) : pyLe (x ++ d) x = false := by
  induction x with
  | nil =>
    match d, hd with
    | c :: ds, _ => rfl
  | cons c xs ih => simp [pyLe, ih]

/-! ### Pattern evaluation shape lemmas

Reductions of `matchSegs`/`patternMatchesFile` on the pattern and path
shapes occurring in the claims, with segment contents left symbolic. -/

theorem matchSegs_ds_one (tk : List GlobTok) (s : PyStr) :
    matchSegs [PatSeg.dstar, PatSeg.seg tk] [s] = matchToks tk s := by
  cases h : matchToks tk s <;> simp [matchSegs, matchSegsAux, h]

theorem matchSegs_ds_two (tk : List GlobTok) (t₁ t₂ : PyStr) :
    matchSegs [PatSeg.dstar, PatSeg.seg tk] [t₁, t₂] = matchToks tk t₂ := by
  cases h₁ : matchToks tk t₁ <;> cases h₂ : matchToks tk t₂ <;>
    simp [matchSegs, matchSegsAux, h₁, h₂]

theorem matchSegs_dsd_one (tk : List GlobTok) (s : PyStr) :
    matchSegs [PatSeg.dstar, PatSeg.seg tk, PatSeg.dstar] [s] = matchToks tk s := by
  cases h : matchToks tk s <;> simp [matchSegs, matchSegsAux, h]

theorem matchSegs_dsd_two (tk : List GlobTok) (t₁ t₂ : PyStr) :
    matchSegs [PatSeg.dstar, PatSeg.seg tk, PatSeg.dstar] [t₁, t₂]
      = (matchToks tk t₁ || matchToks tk t₂) := by
  cases h₁ : matchToks tk t₁ <;> cases h₂ : matchToks tk t₂ <;>
    simp [matchSegs, matchSegsAux, h₁, h₂]

theorem matchSegs_dss_one (tk₁ tk₂ : List GlobTok) (s : PyStr) :
    matchSegs [PatSeg.dstar, PatSeg.seg tk₁, PatSeg.seg tk₂] [s] = false := by
  cases h : matchToks tk₁ s <;> simp [matchSegs, matchSegsAux, h]

theorem matchSegs_dss_two (tk₁ tk₂ : List GlobTok) (t₁ t₂ : PyStr) :
    matchSegs [PatSeg.dstar, PatSeg.seg tk₁, PatSeg.seg tk₂] [t₁, t₂]
      = (matchToks tk₁ t₁ && matchToks tk₂ t₂) := by
  cases h₁ : matchToks tk₁ t₁ <;> cases h₂ : matchToks tk₂ t₂ <;>
    cases h₃ : matchToks tk₁ t₂ <;> simp [matchSegs, matchSegsAux, h₁, h₂, h₃]

theorem pmf_seg_one (ng : Bool) (tk : List GlobTok) (s : PyStr) :
    patternMatchesFile ⟨ng, false, false, [PatSeg.seg tk]⟩ [s] = matchToks tk s := by
  simp [patternMatchesFile, initsNE, matchSegs_ds_one]

theorem pmf_seg_two (ng : Bool) (tk : List GlobTok) (t₁ t₂ : PyStr) :
    patternMatchesFile ⟨ng, false, false, [PatSeg.seg tk]⟩ [t₁, t₂]
      = (matchToks tk t₁ || matchToks tk t₂) := by
  simp [patternMatchesFile, initsNE, matchSegs_ds_one, matchSegs_ds_two, Bool.or_comm]

theorem pmf_segd_two (ng : Bool) (tk : List GlobTok) (t₁ t₂ : PyStr) :
    patternMatchesFile ⟨ng, false, false, [PatSeg.seg tk, PatSeg.dstar]⟩ [t₁, t₂]
      = (matchToks tk t₁ || matchToks tk t₂) := by
  simp [patternMatchesFile, initsNE, matchSegs_dsd_one, matchSegs_dsd_two]

theorem pmf_segseg_two (ng : Bool) (tk₁ tk₂ : List GlobTok) (t₁ t₂ : PyStr) :
    patternMatchesFile ⟨ng, false, false, [PatSeg.seg tk₁, PatSeg.seg tk₂]⟩ [t₁, t₂]
      = (matchToks tk₁ t₁ && matchToks tk₂ t₂) := by
  simp [patternMatchesFile, initsNE, matchSegs_dss_one, matchSegs_dss_two]

theorem matchFile_single (p : GitPattern) (x : List PyStr) :
    matchFile [p] x = (if patternMatchesFile p x then !p.negated else false) := rfl

theorem matchFile_pair (p q : GitPattern) (x : List PyStr) :
    matchFile [p, q] x
      = (if patternMatchesFile q x then !q.negated
         else if patternMatchesFile p x then !p.negated else false) := rfl

/-! ### Loop evaluation helpers -/

theorem dirname_of_append (q s : PyStr) (hs : ∀ c ∈ s, c ≠ '/')
    (hq2 : (q ++ [ '/' ]).all (· = '/') = false) :
    dirnameChars (q ++ '/' :: s) = rstripSlash (q ++ [ '/' ]) := by
  rw [dirnameChars, slashHead_append q s hs]
  simp [hq2]

/-- Claim C1 (amended): the negation override works within a single rule
set but not across rule sets.  In a tree whose root rule set is `*.ext`
followed by `!keep.ext`, a file directly under the root is excluded
exactly when its name ends in `.ext` and is not `keep.ext` — so
`keep.ext` is included and every other `*.ext` file is excluded.  But
when `!keep.ext` sits in a deeper rule set than the `*.ext` exclusion,
the negation has no effect: a file of the deeper directory is excluded
exactly when its name ends in `.ext`, including `keep.ext` itself. -/
theorem C1_negation_override_same_ruleset_only :
    (∀ s : PyStr, (∀ c ∈ s, c ≠ '/') →
      is_ignored (build_dir_to_spec fsSame zig) (str "/b") (str "/b" ++ '/' :: s)
        = (endsWith (str ".ext") s && !decide (s = str "keep.ext")))
  ∧ (∀ s : PyStr, (∀ c ∈ s, c ≠ '/') →
      is_ignored (build_dir_to_spec fsDeep zig) (str "/b") (str "/b/d" ++ '/' :: s)
        = endsWith (str ".ext") s) := by
  constructor
  · intro s hs
    have hd : dirnameChars (str "/b" ++ '/' :: s) = str "/b" :=
      (dirname_of_append (str "/b") s hs rfl).trans rfl
    have hsl : ∀ j, isIgnoredLoop (build_dir_to_spec fsSame zig) (str "/b")
        (str "/b" ++ '/' :: s) (j + 3) (str "/") = some false := fun j => rfl
    have hstep : isIgnoredLoop (build_dir_to_spec fsSame zig) (str "/b")
        (str "/b" ++ '/' :: s) ((s.length + 3) + 1) (str "/b")
        = (if matchFile (load_gitignore_rules (some [str "*.ext", str "!keep.ext"]))
              (splitSlash (relpathUnder (str "/b" ++ '/' :: s) (str "/b")))
           then some true
           else isIgnoredLoop (build_dir_to_spec fsSame zig) (str "/b")
             (str "/b" ++ '/' :: s) (s.length + 3) (str "/")) := rfl
    unfold is_ignored
    rw [show (str "/b" ++ '/' :: s).length + 1 = (s.length + 3) + 1 from rfl]
    rw [hd, hstep, relpath_append (str "/b") s, splitSlash_nosl s hs]
    rw [show load_gitignore_rules (some [str "*.ext", str "!keep.ext"])
        = [⟨false, false, false, [PatSeg.seg (GlobTok.star :: (str ".ext").map GlobTok.lit)]⟩,
           ⟨true, false, false, [PatSeg.seg ((str "keep.ext").map GlobTok.lit)]⟩] from rfl]
    rw [matchFile_pair, pmf_seg_one, pmf_seg_one, matchToks_star_lit, matchToks_lit, hsl]
    by_cases h1 : s = str "keep.ext" <;> cases h2 : endsWith (str ".ext") s <;>
      simp [h1, h2]
  · intro s hs
    have hd : dirnameChars (str "/b/d" ++ '/' :: s) = str "/b/d" :=
      (dirname_of_append (str "/b/d") s hs rfl).trans rfl
    have hsl : ∀ j, isIgnoredLoop (build_dir_to_spec fsDeep zig) (str "/b")
        (str "/b/d" ++ '/' :: s) (j + 4) (str "/") = some false := fun j => rfl
    have hstep1 : isIgnoredLoop (build_dir_to_spec fsDeep zig) (str "/b")
        (str "/b/d" ++ '/' :: s) ((s.length + 5) + 1) (str "/b/d")
        = (if matchFile (load_gitignore_rules (some [str "!keep.ext"]))
              (splitSlash (relpathUnder (str "/b/d" ++ '/' :: s) (str "/b/d")))
           then some true
           else isIgnoredLoop (build_dir_to_spec fsDeep zig) (str "/b")
             (str "/b/d" ++ '/' :: s) (s.length + 5) (str "/b")) := rfl
    have hstep2 : ∀ j, isIgnoredLoop (build_dir_to_spec fsDeep zig) (str "/b")
        (str "/b/d" ++ '/' :: s) (j + 5) (str "/b")
        = (if matchFile (load_gitignore_rules (some [str "*.ext"]))
              (splitSlash (relpathUnder (str "/b/d" ++ '/' :: s) (str "/b")))
           then some true
           else isIgnoredLoop (build_dir_to_spec fsDeep zig) (str "/b")
             (str "/b/d" ++ '/' :: s) (j + 4) (str "/")) := fun j => rfl
    have hrp2 : relpathUnder (str "/b/d" ++ '/' :: s) (str "/b") = 'd' :: '/' :: s := by
      rw [show str "/b/d" ++ '/' :: s = str "/b" ++ '/' :: ('d' :: '/' :: s) from rfl,
        relpath_append]
    have hsp2 : splitSlash ('d' :: '/' :: s) = ['d'] :: splitSlash s := by
      have h := splitSlash_append ['d'] s (by decide)
      simpa using h
    unfold is_ignored
    rw [show (str "/b/d" ++ '/' :: s).length + 1 = (s.length + 5) + 1 from rfl]
    rw [hd, hstep1, relpath_append (str "/b/d") s, splitSlash_nosl s hs]
    rw [show load_gitignore_rules (some [str "!keep.ext"])
        = [⟨true, false, false, [PatSeg.seg ((str "keep.ext").map GlobTok.lit)]⟩] from rfl]
    rw [matchFile_single, pmf_seg_one, matchToks_lit, hstep2, hrp2, hsp2,
      splitSlash_nosl s hs]
    rw [show load_gitignore_rules (some [str "*.ext"])
        = [⟨false, false, false, [PatSeg.seg (GlobTok.star :: (str ".ext").map GlobTok.lit)]⟩] from rfl]
    rw [matchFile_single, pmf_seg_two, matchToks_star_lit, matchToks_star_lit,
      show endsWith (str ".ext") ['d'] = false from rfl, hsl]
    by_cases h1 : s = str "keep.ext" <;> cases h2 : endsWith (str ".ext") s <;>
      simp [h1, h2]

/-- Claim C3 (amended): within a single rule set there is no
directory-exclusion dominance — the engine applies last-match-wins, so
after `dir/**` a later negation naming a file inside `dir` re-includes
exactly that file: a file of `dir` is excluded precisely when it is not
the negated one.  A negation inside the excluded directory's own
(deeper) rule set, however, has no effect: every file of `dir` stays
excluded. -/
theorem C3_no_directory_dominance_same_ruleset :
    (∀ s : PyStr, (∀ c ∈ s, c ≠ '/') →
      is_ignored (build_dir_to_spec fsDirSame zig) (str "/b") (str "/b/dir" ++ '/' :: s)
        = !decide (s = str "keep.txt"))
  ∧ (∀ s : PyStr, (∀ c ∈ s, c ≠ '/') →
      is_ignored (build_dir_to_spec fsDirDeep zig) (str "/b") (str "/b/dir" ++ '/' :: s)
        = true) := by
  constructor
  · intro s hs
    have hd : dirnameChars (str "/b/dir" ++ '/' :: s) = str "/b/dir" :=
      (dirname_of_append (str "/b/dir") s hs rfl).trans rfl
    have hsl : ∀ j, isIgnoredLoop (build_dir_to_spec fsDirSame zig) (str "/b")
        (str "/b/dir" ++ '/' :: s) (j + 6) (str "/") = some false := fun j => rfl
    have hstep1 : isIgnoredLoop (build_dir_to_spec fsDirSame zig) (str "/b")
        (str "/b/dir" ++ '/' :: s) ((s.length + 7) + 1) (str "/b/dir")
        = isIgnoredLoop (build_dir_to_spec fsDirSame zig) (str "/b")
            (str "/b/dir" ++ '/' :: s) (s.length + 7) (str "/b") := rfl
    have hstep2 : ∀ j, isIgnoredLoop (build_dir_to_spec fsDirSame zig) (str "/b")
        (str "/b/dir" ++ '/' :: s) (j + 7) (str "/b")
        = (if matchFile (load_gitignore_rules (some [str "dir/**", str "!dir/keep.txt"]))
              (splitSlash (relpathUnder (str "/b/dir" ++ '/' :: s) (str "/b")))
           then some true
           else isIgnoredLoop (build_dir_to_spec fsDirSame zig) (str "/b")
             (str "/b/dir" ++ '/' :: s) (j + 6) (str "/")) := fun j => rfl
    have hrp : relpathUnder (str "/b/dir" ++ '/' :: s) (str "/b") = str "dir" ++ '/' :: s := by
      rw [show str "/b/dir" ++ '/' :: s = str "/b" ++ '/' :: (str "dir" ++ '/' :: s) from rfl,
        relpath_append]
    unfold is_ignored
    rw [show (str "/b/dir" ++ '/' :: s).length + 1 = (s.length + 7) + 1 from rfl]
    rw [hd, hstep1, hstep2, hrp, splitSlash_append (str "dir") s (by decide),
      splitSlash_nosl s hs]
    rw [show load_gitignore_rules (some [str "dir/**", str "!dir/keep.txt"])
        = [⟨false, false, false, [PatSeg.seg ((str "dir").map GlobTok.lit), PatSeg.dstar]⟩,
           ⟨true, false, false,
             [PatSeg.seg ((str "dir").map GlobTok.lit),
              PatSeg.seg ((str "keep.txt").map GlobTok.lit)]⟩] from rfl]
    rw [matchFile_pair, pmf_segd_two, pmf_segseg_two, matchToks_lit, matchToks_lit,
      matchToks_lit, hsl]
    by_cases h1 : s = str "keep.txt" <;> simp [h1]
  · intro s hs
    have hd : dirnameChars (str "/b/dir" ++ '/' :: s) = str "/b/dir" :=
      (dirname_of_append (str "/b/dir") s hs rfl).trans rfl
    have hstep1 : isIgnoredLoop (build_dir_to_spec fsDirDeep zig) (str "/b")
        (str "/b/dir" ++ '/' :: s) ((s.length + 7) + 1) (str "/b/dir")
        = (if matchFile (load_gitignore_rules (some [str "!keep.txt"]))
              (splitSlash (relpathUnder (str "/b/dir" ++ '/' :: s) (str "/b/dir")))
           then some true
           else isIgnoredLoop (build_dir_to_spec fsDirDeep zig) (str "/b")
             (str "/b/dir" ++ '/' :: s) (s.length + 7) (str "/b")) := rfl
    have hstep2 : ∀ j, isIgnoredLoop (build_dir_to_spec fsDirDeep zig) (str "/b")
        (str "/b/dir" ++ '/' :: s) (j + 7) (str "/b")
        = (if matchFile (load_gitignore_rules (some [str "dir/**"]))
              (splitSlash (relpathUnder (str "/b/dir" ++ '/' :: s) (str "/b")))
           then some true
           else isIgnoredLoop (build_dir_to_spec fsDirDeep zig) (str "/b")
             (str "/b/dir" ++ '/' :: s) (j + 6) (str "/")) := fun j => rfl
    have hrp : relpathUnder (str "/b/dir" ++ '/' :: s) (str "/b") = str "dir" ++ '/' :: s := by
      rw [show str "/b/dir" ++ '/' :: s = str "/b" ++ '/' :: (str "dir" ++ '/' :: s) from rfl,
        relpath_append]
    unfold is_ignored
    rw [show (str "/b/dir" ++ '/' :: s).length + 1 = (s.length + 7) + 1 from rfl]
    rw [hd, hstep1, relpath_append (str "/b/dir") s, splitSlash_nosl s hs]
    rw [show load_gitignore_rules (some [str "!keep.txt"])
        = [⟨true, false, false, [PatSeg.seg ((str "keep.txt").map GlobTok.lit)]⟩] from rfl]
    rw [matchFile_single, pmf_seg_one, matchToks_lit, hstep2, hrp,
      splitSlash_append (str "dir") s (by decide), splitSlash_nosl s hs]
    rw [show load_gitignore_rules (some [str "dir/**"])
        = [⟨false, false, false,
            [PatSeg.seg ((str "dir").map GlobTok.lit), PatSeg.dstar]⟩] from rfl]
    rw [matchFile_single, pmf_segd_two, matchToks_lit, matchToks_lit]
    by_cases h1 : s = str "keep.txt" <;> simp [h1]

/-- Claim C1, counterexample: in a tree whose root rule set holds
`*.ext` and whose deeper directory `d` holds the later, more specific
rule set `!keep.ext`, the claim requires `d/keep.ext` to receive Verdict
included; the engine excludes it — the deeper rule set's negation never
reaches the verdict because the walk returns ignored as soon as the
root's rule set matches. -/
theorem C1_cx_deeper_negation_ignored :
    is_ignored (build_dir_to_spec fsDeep zig) (str "/b") (str "/b/d/keep.ext") = true
  ∧ str "d/keep.ext" ∉ get_non_ignored_files (str "/b") zig fsDeep := by
  constructor
  · rfl
  · decide

/-- Claim C1, witness: the amended theorem applied at the concrete names
`keep.ext` (included under the same rule set, excluded under the deeper
one) and `other.ext` (excluded). -/
theorem C1_witness :
    is_ignored (build_dir_to_spec fsSame zig) (str "/b") (str "/b" ++ '/' :: str "keep.ext")
      = false
  ∧ is_ignored (build_dir_to_spec fsSame zig) (str "/b") (str "/b" ++ '/' :: str "other.ext")
      = true
  ∧ is_ignored (build_dir_to_spec fsDeep zig) (str "/b") (str "/b/d" ++ '/' :: str "keep.ext")
      = true :=
  ⟨(C1_negation_override_same_ruleset_only.1 (str "keep.ext") (by decide)).trans (by decide),
   (C1_negation_override_same_ruleset_only.1 (str "other.ext") (by decide)).trans (by decide),
   (C1_negation_override_same_ruleset_only.2 (str "keep.ext") (by decide)).trans (by decide)⟩

/-- Claim C3, counterexample: with the single root rule set `dir/**`
then `!dir/keep.txt`, the claim requires every file under `dir` — in
particular `dir/keep.txt` — to be excluded; the engine re-includes
`dir/keep.txt`, because rule-set evaluation is last-match-wins with no
directory-exclusion dominance. -/
theorem C3_cx_negation_reincludes :
    is_ignored (build_dir_to_spec fsDirSame zig) (str "/b") (str "/b/dir/keep.txt") = false
  ∧ str "dir/keep.txt" ∈ get_non_ignored_files (str "/b") zig fsDirSame := by
  constructor
  · rfl
  · decide

/-- Claim C3, witness: the amended theorem applied at the concrete names
`keep.txt` (re-included by the same-rule-set negation, excluded under
the deeper one) and `drop.txt` (excluded). -/
theorem C3_witness :
    is_ignored (build_dir_to_spec fsDirSame zig) (str "/b")
      (str "/b/dir" ++ '/' :: str "keep.txt") = false
  ∧ is_ignored (build_dir_to_spec fsDirSame zig) (str "/b")
      (str "/b/dir" ++ '/' :: str "drop.txt") = true
  ∧ is_ignored (build_dir_to_spec fsDirDeep zig) (str "/b")
      (str "/b/dir" ++ '/' :: str "keep.txt") = true :=
  ⟨(C3_no_directory_dominance_same_ruleset.1 (str "keep.txt") (by decide)).trans (by decide),
   (C3_no_directory_dominance_same_ruleset.1 (str "drop.txt") (by decide)).trans (by decide),
   C3_no_directory_dominance_same_ruleset.2 (str "keep.txt") (by decide)⟩

set_option maxRecDepth 10000 in
/-- Claim C2: on Scenario A's tree the engine returns exactly the rule
file, `some_file.txt`, `do_not_ignore.txt` and
`not_ignore_dir/not_ignore_file.txt`, in walk order, and hence excludes
`please_ignore.txt` and `ignore_dir/ignore_file.txt`. -/
theorem C2_scenario_A :
    get_non_ignored_files (str "/t") (str ".gitignore") fsScenA
      = [str ".gitignore", str "some_file.txt", str "do_not_ignore.txt",
         str "not_ignore_dir/not_ignore_file.txt"] := by
  decide

/-! ### Membership in the selector output -/

theorem select_mem (m : List (PyStr × List GitPattern)) (base iname : PyStr) (fs : FS)
    (rf : PyStr × List (PyStr × List PyStr)) (f : PyStr × List PyStr)
    (h1 : rf ∈ fs) (h2 : f ∈ rf.2)
    (h3 : f.1 = iname ∨ is_ignored m base (joinPath rf.1 f.1) = false) :
    relpathUnder (joinPath rf.1 f.1) base ∈ select_files m base iname fs := by
  unfold select_files
  rw [List.mem_flatMap]
  refine ⟨rf, h1, ?_⟩
  rw [List.mem_filterMap]
  exact ⟨f, h2, by simp only [if_pos h3]⟩

/-- Claim C9: at every depth, a file whose name equals the configured
rule-file name is appended to the output unconditionally — the inclusion
test short-circuits on the name before any rule is consulted, so no
hypothesis about the rule sets is needed. -/
theorem C9_rulefile_unconditional (fs : FS) (base iname : PyStr)
    (rf : PyStr × List (PyStr × List PyStr)) (f : PyStr × List PyStr)
    (h1 : rf ∈ fs) (h2 : f ∈ rf.2) (h3 : f.1 = iname) :
    relpathUnder (joinPath rf.1 f.1) base ∈ get_non_ignored_files base iname fs := by
  unfold get_non_ignored_files
  exact select_mem _ _ _ _ _ _ h1 h2 (Or.inl h3)

/-- Claim C9, witness: in a tree whose rule file is matched by its own
pattern the rule file still appears in the output. -/
theorem C9_witness :
    str ".7zignore" ∈ get_non_ignored_files (str "/t") zig fsSelf := by
  have h := C9_rulefile_unconditional fsSelf (str "/t") zig
    (str "/t", [ (zig, [str ".7zignore"]), (str "a.txt", []) ])
    (zig, [str ".7zignore"]) (by decide) (by decide) rfl
  exact h

/-- Claim C4, counterexample: a rule file whose single pattern is its
own name is excluded by the applicable patterns (`is_ignored` holds),
yet it appears in the output — contradicting the claim that the rule
file appears if and only if not excluded, evaluated like any other
file. -/
theorem C4_cx_rulefile_carveout :
    is_ignored (build_dir_to_spec fsSelf zig) (str "/t") (str "/t/.7zignore") = true
  ∧ str ".7zignore" ∈ get_non_ignored_files (str "/t") zig fsSelf := by
  constructor
  · rfl
  · decide

/-- Claim C4 (amended): the rule file is not evaluated like other files:
a file whose name equals the configured rule-file name appears in the
output even when the applicable patterns exclude it, through the
unconditional name test of the inclusion check. -/
theorem C4_rulefile_included_when_excluded (fs : FS) (base iname : PyStr)
    (rf : PyStr × List (PyStr × List PyStr)) (f : PyStr × List PyStr)
    (h1 : rf ∈ fs) (h2 : f ∈ rf.2) (h3 : f.1 = iname)
    (_h4 : is_ignored (build_dir_to_spec fs iname) base (joinPath rf.1 f.1) = true) :
    relpathUnder (joinPath rf.1 f.1) base ∈ get_non_ignored_files base iname fs := by
  unfold get_non_ignored_files
  exact select_mem _ _ _ _ _ _ h1 h2 (Or.inl h3)

/-- Claim C4, witness: the amended theorem applied to the tree whose
rule file matches its own pattern, together with the fact that the
excluded-rule-file hypothesis really holds there. -/
theorem C4_witness :
    is_ignored (build_dir_to_spec fsSelf zig) (str "/t") (joinPath (str "/t") zig) = true
  ∧ str ".7zignore" ∈ get_non_ignored_files (str "/t") zig fsSelf := by
  refine ⟨rfl, ?_⟩
  have h := C4_rulefile_included_when_excluded fsSelf (str "/t") zig
    (str "/t", [ (zig, [str ".7zignore"]), (str "a.txt", []) ])
    (zig, [str ".7zignore"]) (by decide) (by decide) rfl rfl
  exact h

/-! ### The ancestor-chain lemmas -/

theorem matchFile_of_none (pats : List GitPattern) (x : List PyStr)
    (h : ∀ p ∈ pats, patternMatchesFile p x = false) : matchFile pats x = false := by
  unfold matchFile
  induction pats with
  | nil => rfl
  | cons p ps ih =>
    rw [List.foldl_cons, h p (List.mem_cons_self p ps), if_neg (by simp)]
    exact ih (fun q hq => h q (List.mem_cons_of_mem p hq))

theorem loop_no_match (m : List (PyStr × List GitPattern)) (base path : PyStr) :
    ∀ (n : Nat) (cur : PyStr),
      (∀ d ∈ ancestorChain base n cur,
        matchFile ((lookupSpec m d).getD []) (splitSlash (relpathUnder path d)) = false) →
      (isIgnoredLoop m base path n cur).getD false = false := by
  intro n
  induction n with
  | zero => intro cur _; rfl
  | succ n ih =>
    intro cur h
    by_cases hg : pyLe base cur = true
    · have hchain : ancestorChain base (n + 1) cur
          = cur :: ancestorChain base n (dirnameChars cur) := by
        simp [ancestorChain, hg]
      have htail : ∀ d ∈ ancestorChain base n (dirnameChars cur),
          matchFile ((lookupSpec m d).getD []) (splitSlash (relpathUnder path d)) = false :=
        fun d hd => h d (by rw [hchain]; exact List.mem_cons_of_mem _ hd)
      have hcur := h cur (by rw [hchain]; exact List.mem_cons_self _ _)
      cases hl : lookupSpec m cur with
      | none =>
        simp only [isIgnoredLoop, hg, if_true, hl]
        exact ih (dirnameChars cur) htail
      | some pats =>
        rw [hl] at hcur
        have hcur' : matchFile pats (splitSlash (relpathUnder path cur)) = false := hcur
        simp only [isIgnoredLoop, hg, if_true, hl, hcur']
        rw [if_neg (by simp)]
        exact ih (dirnameChars cur) htail
    · simp only [isIgnoredLoop]
      rw [if_neg hg]
      rfl

/-- Claim C5: a file matched by no pattern of any rule set on its
ancestor chain gets Verdict included and appears in the output
sequence. -/
theorem C5_default_include (fs : FS) (base iname : PyStr)
    (rf : PyStr × List (PyStr × List PyStr)) (f : PyStr × List PyStr)
    (h1 : rf ∈ fs) (h2 : f ∈ rf.2)
    (h3 : ∀ d ∈ ancestorChain base ((joinPath rf.1 f.1).length + 1)
        (dirnameChars (joinPath rf.1 f.1)),
      matchFile ((lookupSpec (build_dir_to_spec fs iname) d).getD [])
        (splitSlash (relpathUnder (joinPath rf.1 f.1) d)) = false) :
    is_ignored (build_dir_to_spec fs iname) base (joinPath rf.1 f.1) = false
  ∧ relpathUnder (joinPath rf.1 f.1) base ∈ get_non_ignored_files base iname fs := by
  have hv : is_ignored (build_dir_to_spec fs iname) base (joinPath rf.1 f.1) = false := by
    unfold is_ignored
    exact loop_no_match _ base _ _ _ h3
  refine ⟨hv, ?_⟩
  unfold get_non_ignored_files
  exact select_mem _ _ _ _ _ _ h1 h2 (Or.inr hv)

/-- Claim C5, witness: a tree with no rule files at all; its single file
is matched by nothing, is not ignored, and appears in the output. -/
theorem C5_witness :
    is_ignored (build_dir_to_spec [(str "/t", [(str "a.txt", [])])] (str ".gitignore"))
      (str "/t") (joinPath (str "/t") (str "a.txt")) = false
  ∧ relpathUnder (joinPath (str "/t") (str "a.txt")) (str "/t")
      ∈ get_non_ignored_files (str "/t") (str ".gitignore") [(str "/t", [(str "a.txt", [])])] :=
  C5_default_include [(str "/t", [(str "a.txt", [])])] (str "/t") (str ".gitignore")
    (str "/t", [(str "a.txt", [])]) (str "a.txt", []) (by decide) (by decide) (by decide)

theorem loop_agree (m₁ m₂ : List (PyStr × List GitPattern)) (base path : PyStr) :
    ∀ (n : Nat) (cur : PyStr),
      (∀ d ∈ ancestorChain base n cur, lookupSpec m₁ d = lookupSpec m₂ d) →
      isIgnoredLoop m₁ base path n cur = isIgnoredLoop m₂ base path n cur := by
  intro n
  induction n with
  | zero => intro cur _; rfl
  | succ n ih =>
    intro cur h
    by_cases hg : pyLe base cur = true
    · have hchain : ancestorChain base (n + 1) cur
          = cur :: ancestorChain base n (dirnameChars cur) := by
        simp [ancestorChain, hg]
      have htail : ∀ d ∈ ancestorChain base n (dirnameChars cur),
          lookupSpec m₁ d = lookupSpec m₂ d :=
        fun d hd => h d (by rw [hchain]; exact List.mem_cons_of_mem _ hd)
      have hcur : lookupSpec m₁ cur = lookupSpec m₂ cur :=
        h cur (by rw [hchain]; exact List.mem_cons_self _ _)
      simp only [isIgnoredLoop, hg, if_true, ← hcur, ih (dirnameChars cur) htail]
    · simp only [isIgnoredLoop]
      rw [if_neg hg, if_neg hg]

/-- Claim C6: the verdict of a file depends only on the rule sets of its
ancestor chain — two trees whose rule mappings agree on every directory
the ancestor walk visits give the file the same verdict, whatever rule
files exist elsewhere. -/
theorem C6_verdict_depends_on_ancestors_only (fs₁ fs₂ : FS) (base iname path : PyStr)
    (h : ∀ d ∈ ancestorChain base (path.length + 1) (dirnameChars path),
      lookupSpec (build_dir_to_spec fs₁ iname) d = lookupSpec (build_dir_to_spec fs₂ iname) d) :
    is_ignored (build_dir_to_spec fs₁ iname) base path
      = is_ignored (build_dir_to_spec fs₂ iname) base path := by
  unfold is_ignored
  rw [loop_agree _ _ base path (path.length + 1) (dirnameChars path) h]

/-- Claim C6, witness: a rule file added in the sibling directory
`/b/y` (excluding `f.txt`) does not change the verdict of `/b/x/f.txt`,
whose ancestor chain never visits `/b/y`. -/
theorem C6_witness :
    is_ignored (build_dir_to_spec
        [(str "/b", [(str "f.txt", [])]),
         (str "/b/x", [(str "f.txt", [])]),
         (str "/b/y", [(zig, [str "f.txt"]), (str "f.txt", [])])] zig)
      (str "/b") (str "/b/x/f.txt")
    = is_ignored (build_dir_to_spec
        [(str "/b", [(str "f.txt", [])]),
         (str "/b/x", [(str "f.txt", [])])] zig)
      (str "/b") (str "/b/x/f.txt") :=
  C6_verdict_depends_on_ancestors_only _ _ (str "/b") zig (str "/b/x/f.txt") (by decide)

theorem lookupSpec_append_single (m : List (PyStr × List GitPattern)) (d cur : PyStr)
    (pats : List GitPattern) :
    lookupSpec (m ++ [(d, pats)]) cur
      = (lookupSpec m cur).or (if d = cur then some pats else none) := by
  induction m with
  | nil =>
    by_cases he : d = cur
    · simp [lookupSpec, List.find?, he]
    · simp [lookupSpec, List.find?, he]
  | cons e m ih =>
    by_cases he : e.1 = cur
    · simp [lookupSpec, List.find?, he]
    · simp only [lookupSpec, List.cons_append, List.find?] at ih ⊢
      simp only [he, decide_eq_true_eq, decide_False] at ih ⊢
      exact ih

theorem loop_append_empty (m : List (PyStr × List GitPattern)) (d base path : PyStr)
    (_hd : lookupSpec m d = none) :
    ∀ (n : Nat) (cur : PyStr),
      isIgnoredLoop (m ++ [(d, [])]) base path n cur = isIgnoredLoop m base path n cur := by
  intro n
  induction n with
  | zero => intro cur; rfl
  | succ n ih =>
    intro cur
    by_cases hg : pyLe base cur = true
    · cases hl : lookupSpec m cur with
      | some pats =>
        have hl' : lookupSpec (m ++ [(d, [])]) cur = some pats := by
          rw [lookupSpec_append_single, hl]
          rfl
        simp only [isIgnoredLoop, hg, if_true, hl, hl', ih (dirnameChars cur)]
      | none =>
        by_cases hdc : d = cur
        · have hl' : lookupSpec (m ++ [(d, [])]) cur = some [] := by
            rw [lookupSpec_append_single, hl, if_pos hdc]
            rfl
          have hmf : matchFile [] (splitSlash (relpathUnder path cur)) = false := rfl
          simp only [isIgnoredLoop, hg, if_true, hl, hl', hmf]
          rw [if_neg (by simp)]
          exact ih (dirnameChars cur)
        · have hl' : lookupSpec (m ++ [(d, [])]) cur = none := by
            rw [lookupSpec_append_single, hl, if_neg hdc]
            rfl
          simp only [isIgnoredLoop, hg, if_true, hl, hl', ih (dirnameChars cur)]
    · simp only [isIgnoredLoop]
      rw [if_neg hg, if_neg hg]

/-- Claim C7: a missing rule file is not an error — loading a
nonexistent rule file yields the empty rule set, and a directory absent
from the directory-to-rules mapping contributes nothing: adding it to
the mapping with the (empty) loaded rule set leaves every verdict
unchanged. -/
theorem C7_missing_rulefile_empty (m : List (PyStr × List GitPattern)) (d base path : PyStr)
    (hd : lookupSpec m d = none) :
    load_gitignore_rules none = []
  ∧ is_ignored (m ++ [(d, load_gitignore_rules none)]) base path = is_ignored m base path := by
  refine ⟨rfl, ?_⟩
  unfold is_ignored
  rw [show load_gitignore_rules none = [] from rfl,
    loop_append_empty m d base path hd (path.length + 1) (dirnameChars path)]

/-- Claim C7, witness: adding the empty rule set for the unlisted
directory `/t/d` to a one-rule mapping changes no verdict. -/
theorem C7_witness :
    load_gitignore_rules none = []
  ∧ is_ignored ([(str "/t", load_gitignore_rules (some [str "*.log"]))]
        ++ [(str "/t/d", load_gitignore_rules none)])
      (str "/t") (str "/t/d/a.log")
    = is_ignored [(str "/t", load_gitignore_rules (some [str "*.log"]))]
      (str "/t") (str "/t/d/a.log") :=
  C7_missing_rulefile_empty [(str "/t", load_gitignore_rules (some [str "*.log"]))]
    (str "/t/d") (str "/t") (str "/t/d/a.log") (by decide)

/-! ### Read failures -/

theorem buildE_error (iname : PyStr) : ∀ (fs : FSE),
    (∃ rf ∈ fs, findFileE rf.2 iname = some (Except.error ())) →
    build_dir_to_specE iname fs = Except.error () := by
  intro fs
  induction fs with
  | nil => rintro ⟨rf, hmem, _⟩; cases hmem
  | cons rf rest ih =>
    rintro ⟨rf₀, hmem, herr⟩
    rcases List.mem_cons.mp hmem with heq | hmem'
    · subst heq
      simp [build_dir_to_specE, herr, load_gitignore_rulesE]
    · have hrest := ih ⟨rf₀, hmem', herr⟩
      cases hf : findFileE rf.2 iname with
      | none => simp [build_dir_to_specE, hf, hrest]
      | some content =>
        cases content with
        | error e => simp [build_dir_to_specE, hf, load_gitignore_rulesE]
        | ok lines =>
          simp [build_dir_to_specE, hf, load_gitignore_rulesE, hrest, Except.map]

/-- Claim C8 (amended): a failing rule-file read is not recoverable and
is not scoped to its directory — it propagates and aborts the whole
scan: whenever any directory's rule file read fails, the engine yields
the error and produces no file list at all; no policy choice exists. -/
theorem C8_read_failure_aborts_scan (base iname : PyStr) (fs : FSE)
    (h : ∃ rf ∈ fs, findFileE rf.2 iname = some (Except.error ())) :
    get_non_ignored_filesE base iname fs = Except.error () := by
  unfold get_non_ignored_filesE
  rw [buildE_error iname fs h]

set_option maxRecDepth 10000 in
/-- Claim C8, counterexample: on a tree whose root rule file reads fine
and whose subdirectory rule file fails to read, the claim requires a
recoverable, directory-scoped failure with the other directories still
processed; the engine instead returns the bare error and emits nothing —
while the same tree with a readable subdirectory rule file yields the
full listing. -/
theorem C8_cx_failure_not_scoped :
    get_non_ignored_filesE (str "/t") (str ".gitignore") fseBad = Except.error ()
  ∧ get_non_ignored_filesE (str "/t") (str ".gitignore")
      [ (str "/t",
          [ (str ".gitignore", Except.ok [str "*.log"]), (str "keep.txt", Except.ok []) ]),
        (str "/t/d",
          [ (str ".gitignore", Except.ok []), (str "other.txt", Except.ok []) ]) ]
    = Except.ok [str ".gitignore", str "keep.txt", str "d/.gitignore", str "d/other.txt"] :=
  ⟨rfl, rfl⟩

/-- Claim C8, witness: the amended theorem applied to a one-directory
tree whose rule file read fails. -/
theorem C8_witness :
    get_non_ignored_filesE (str "/t") (str ".gitignore")
      [(str "/t", [(str ".gitignore", Except.error ())])] = Except.error () :=
  C8_read_failure_aborts_scan (str "/t") (str ".gitignore")
    [(str "/t", [(str ".gitignore", Except.error ())])]
    ⟨(str "/t", [(str ".gitignore", Except.error ())]), List.mem_cons_self _ _, rfl⟩

/-! ### Termination of the ancestor walk -/

theorem dropWhile_len_le (p : Char → Bool) (l : PyStr) :
    (l.dropWhile p).length ≤ l.length := by
  induction l with
  | nil => simp
  | cons c l ih =>
    by_cases hp : p c
    · simp only [List.dropWhile, hp, List.length_cons]
      omega
    · simp [List.dropWhile, hp]

theorem slashHead_isPre : ∀ (p h : PyStr), slashHead p = some h → h <+: p := by
  intro p
  induction p with
  | nil => intro h hh; cases hh
  | cons c cs ih =>
    intro h hh
    simp only [slashHead] at hh
    cases hsc : slashHead cs with
    | some h' =>
      rw [hsc] at hh
      injection hh with hh
      subst hh
      exact (List.cons_prefix_cons).mpr ⟨rfl, ih h' hsc⟩
    | none =>
      rw [hsc] at hh
      by_cases hc : c = '/'
      · rw [if_pos hc] at hh
        injection hh with hh
        subst hh
        exact (List.cons_prefix_cons).mpr ⟨hc.symm, List.nil_prefix⟩
      · rw [if_neg hc] at hh
        cases hh

theorem slashHead_ends : ∀ (p h : PyStr), slashHead p = some h → ∃ a, h = a ++ [ '/' ] := by
  intro p
  induction p with
  | nil => intro h hh; cases hh
  | cons c cs ih =>
    intro h hh
    simp only [slashHead] at hh
    cases hsc : slashHead cs with
    | some h' =>
      rw [hsc] at hh
      injection hh with hh
      subst hh
      rcases ih h' hsc with ⟨a, rfl⟩
      exact ⟨c :: a, rfl⟩
    | none =>
      rw [hsc] at hh
      by_cases hc : c = '/'
      · rw [if_pos hc] at hh
        injection hh with hh
        subst hh
        exact ⟨[], rfl⟩
      · rw [if_neg hc] at hh
        cases hh

theorem rstrip_pre (h : PyStr) : rstripSlash h <+: h := by
  have hsuf : h.reverse.dropWhile (· = '/') <:+ h.reverse := List.dropWhile_suffix _
  have h2 : (h.reverse.dropWhile (· = '/')).reverse.reverse <:+ h.reverse := by
    rw [List.reverse_reverse]
    exact hsuf
  exact (List.reverse_suffix).mp h2

theorem rstrip_len_le (a : PyStr) : (rstripSlash (a ++ [ '/' ])).length ≤ a.length := by
  unfold rstripSlash
  rw [List.reverse_append]
  have hdw : List.dropWhile (· = '/') ([ '/' ].reverse ++ a.reverse)
      = List.dropWhile (· = '/') a.reverse := by
    simp [List.dropWhile]
  rw [hdw, List.length_reverse]
  have := dropWhile_len_le (· = '/') a.reverse
  simpa using this

theorem dirname_pre (p : PyStr) : dirnameChars p <+: p := by
  unfold dirnameChars
  cases hsh : slashHead p with
  | none => exact List.nil_prefix
  | some h =>
    dsimp only
    by_cases ha : h.all (· = '/')
    · rw [if_pos ha]
      exact slashHead_isPre p h hsh
    · rw [if_neg ha]
      exact (rstrip_pre h).trans (slashHead_isPre p h hsh)

theorem dirname_len_le (p : PyStr) : (dirnameChars p).length ≤ p.length :=
  (dirname_pre p).length_le

theorem dirname_len_lt (p : PyStr) (hp : allSlash p = false) :
    (dirnameChars p).length < p.length := by
  unfold dirnameChars
  cases hsh : slashHead p with
  | none =>
    have hne : p ≠ [] := by
      intro h0
      rw [h0] at hp
      simp [allSlash] at hp
    simp only [List.length_nil]
    exact List.length_pos.mpr hne
  | some h =>
    have hpre := slashHead_isPre p h hsh
    dsimp only
    by_cases ha : h.all (· = '/')
    · rw [if_pos ha]
      have hne : h ≠ p := by
        intro he
        rw [he] at ha
        simp only [allSlash] at hp
        rw [ha] at hp
        cases hp
      rcases hpre with ⟨t, ht⟩
      have htne : t ≠ [] := by
        intro h0
        rw [h0, List.append_nil] at ht
        exact hne ht
      rw [← ht, List.length_append]
      have : 0 < t.length := List.length_pos.mpr htne
      omega
    · rw [if_neg ha]
      rcases slashHead_ends p h hsh with ⟨a, rfl⟩
      have h1 : (rstripSlash (a ++ [ '/' ])).length ≤ a.length := rstrip_len_le a
      have h2 : (a ++ [ '/' ]).length ≤ p.length := hpre.length_le
      rw [List.length_append] at h2
      simp only [List.length_cons, List.length_nil] at h2
      omega

theorem prefix_allSlash : ∀ (cur p : PyStr), cur <+: p → allSlash cur = true →
    cur <+: leadingSlashes p := by
  intro cur
  induction cur with
  | nil => intro p _ _; exact List.nil_prefix
  | cons c cs ih =>
    intro p hpre ha
    simp only [allSlash, List.all_cons, Bool.and_eq_true] at ha
    have hc : c = '/' := by simpa using ha.1
    have ha' : allSlash cs = true := ha.2
    rcases hpre with ⟨t, ht⟩
    subst ht
    subst hc
    have hl : leadingSlashes ('/' :: (cs ++ t)) = '/' :: leadingSlashes (cs ++ t) := by
      simp [leadingSlashes, List.takeWhile]
    rw [show ('/' :: cs) ++ t = '/' :: (cs ++ t) from rfl, hl]
    exact (List.cons_prefix_cons).mpr ⟨rfl, ih (cs ++ t) (List.prefix_append cs t) ha'⟩

theorem leadingSlashes_append (q z : PyStr) (hq : allSlash q = false) :
    leadingSlashes (q ++ z) = leadingSlashes q := by
  induction q with
  | nil => simp [allSlash] at hq
  | cons c q' ih =>
    by_cases hc : c = '/'
    · subst hc
      have hq' : allSlash q' = false := by
        simp only [allSlash, List.all_cons] at hq ⊢
        simpa using hq
      have ih' := ih hq'
      simp only [leadingSlashes] at ih' ⊢
      simp [List.takeWhile, ih']
    · simp [leadingSlashes, List.takeWhile, hc]

theorem loop_term_aux (m : List (PyStr × List GitPattern)) (base p : PyStr)
    (hb : allSlash base = false) :
    ∀ (n : Nat) (cur : PyStr), cur.length < n → cur <+: p →
      leadingSlashes p = leadingSlashes base →
      (isIgnoredLoop m base p n cur).isSome = true := by
  intro n
  induction n with
  | zero =>
    intro cur hlen _ _
    exact absurd hlen (Nat.not_lt_zero _)
  | succ n ih =>
    intro cur hlen hpre hls
    by_cases hg : pyLe base cur = true
    · have hnall : allSlash cur = false := by
        cases hall : allSlash cur with
        | false => rfl
        | true =>
          exfalso
          have h1 : cur <+: leadingSlashes base := by
            rw [← hls]
            exact prefix_allSlash cur p hpre hall
          have h3 : cur <+: base := h1.trans (List.takeWhile_prefix _)
          rcases h3 with ⟨t, ht⟩
          have htne : t ≠ [] := by
            intro h0
            rw [h0, List.append_nil] at ht
            rw [ht] at hall
            rw [hall] at hb
            cases hb
          have hlt := pyLe_append_ne cur t htne
          rw [ht] at hlt
          rw [hg] at hlt
          cases hlt
      have hlt : (dirnameChars cur).length < cur.length := dirname_len_lt cur hnall
      have hpre' : dirnameChars cur <+: p := (dirname_pre cur).trans hpre
      have hrec := ih (dirnameChars cur) (by omega) hpre' hls
      cases hl : lookupSpec m cur with
      | none =>
        simp only [isIgnoredLoop, hg, if_true, hl]
        exact hrec
      | some pats =>
        by_cases hm : matchFile pats (splitSlash (relpathUnder p cur)) = true
        · simp [isIgnoredLoop, hg, hl, hm]
        · simp only [isIgnoredLoop, hg, if_true, hl]
          rw [if_neg hm]
          exact hrec
    · simp only [isIgnoredLoop]
      rw [if_neg hg]
      rfl

/-- Claim C10 (amended): the ancestor walk terminates for every base
directory whose path string contains at least one character other than
`/` — in particular every normalized non-root directory — and every
file strictly below it; the lexicographic guard fails at the first
dirname fixed point reached, which is a proper prefix of the base.  The
argument indeed breaks when the base is a dirname fixed point itself:
not only the filesystem root `/` but also its degenerate spellings
(`//`, `///`, ...) and the empty string, where the loop can run
forever. -/
theorem C10_walk_terminates (m : List (PyStr × List GitPattern)) (base r : PyStr)
    (hb : allSlash base = false) :
    LoopTerminates m base (base ++ '/' :: r) := by
  refine ⟨(base ++ '/' :: r).length + 1, ?_⟩
  apply loop_term_aux m base (base ++ '/' :: r) hb
  · exact Nat.lt_succ_of_le (dirname_len_le _)
  · exact dirname_pre _
  · exact leadingSlashes_append base ('/' :: r) hb

/-- Claim C10, counterexample: the base path `//` is a string distinct
from the filesystem root `/`, yet the loop does not terminate on the
file `//f` below it: `dirname` fixes `//` and the guard `// >= //`
stays true, so every amount of fuel is exhausted. -/
theorem C10_cx_double_slash_base :
    ¬ LoopTerminates [] (str "//") (str "//f") := by
  have hfix : ∀ n, isIgnoredLoop [] (str "//") (str "//f") n (str "//") = none := by
    intro n
    induction n with
    | zero => rfl
    | succ n ih => exact ih
  rintro ⟨n, hn⟩
  rw [show dirnameChars (str "//f") = str "//" from rfl, hfix n] at hn
  cases hn

/-- Claim C10, witness: the amended theorem applied to the ordinary base
`/b` and the file `/b/f.txt` below it. -/
theorem C10_witness :
    LoopTerminates [] (str "/b") (str "/b" ++ '/' :: str "f.txt") :=
  C10_walk_terminates [] (str "/b") (str "f.txt") (by decide)
